import Mathlib

/-!
Shallow embedding of the PARIS player/exporter core
(`src/paris_player_exporter.py`): the schedule parser `parse_paris` and the
waveform synthesizer `synthesize_pcm16`, together with proofs of the spec
claims about them.

Modelling conventions:
* Python floats are modelled as exact rationals (parameters) and reals
  (sample amplitudes, which involve `sin`/`cos`).
* Python `int(x)` is truncation toward zero (`truncQ` / `truncR`);
  Python `round(x)` rounds to the nearest integer with ties to even
  (`pyRound`).
* A timing row `(duration_ms, value)` is a pair `ℤ × ℤ`, as in the source.
* The PCM byte buffer is modelled as the list of 16-bit sample values
  (`List ℤ`); the byte-level view is recovered by `toBytes`, which packs
  each sample as two little-endian bytes as `struct.pack` with format
  `<h` does.
-/

namespace ParisPlayer

set_option maxRecDepth 8000

/-- Python `int()` applied to a rational: truncation toward zero. -/
def truncQ (x : ℚ) : ℤ := if 0 ≤ x then ⌊x⌋ else ⌈x⌉

/-- Python `int()` applied to a real: truncation toward zero. -/
noncomputable def truncR (x : ℝ) : ℤ := if 0 ≤ x then ⌊x⌋ else ⌈x⌉

/-- Python `round()`: nearest integer, ties broken to the even integer. -/
def pyRound (x : ℚ) : ℤ :=
  if x - ⌊x⌋ < 1/2 then ⌊x⌋
  else if 1/2 < x - ⌊x⌋ then ⌊x⌋ + 1
  else if ⌊x⌋ % 2 = 0 then ⌊x⌋ else ⌊x⌋ + 1

/-! Part: Schedule parser (`parse_paris`, source lines 33-56)

Strings are modelled as their character lists, so that every string
operation the parser uses is structurally recursive and evaluable. -/

/-- The whitespace characters Python `str.strip()` removes. -/
def isPySpace (c : Char) : Bool :=
  c = ' ' || c = '\t' || c = '\n' || c = '\r' || c = '\x0b' || c = '\x0c'

/-- Python `str.strip()`: drop leading and trailing whitespace. -/
def pyStrip (cs : List Char) : List Char :=
  ((cs.dropWhile isPySpace).reverse.dropWhile isPySpace).reverse

/-- Python `str.split(",")`: split at every comma. -/
def splitComma : List Char → List (List Char)
  | [] => [[]]
  | c :: rest =>
    match splitComma rest with
    | [] => [[c]]
    | g :: gs => if c = ',' then [] :: g :: gs else (c :: g) :: gs

/-- Value of a list of decimal digit characters. -/
def digitsVal (cs : List Char) : ℕ :=
  cs.foldl (fun a c => 10 * a + (c.toNat - 48)) 0

/-- A nonempty all-digit character list parses to its value, else fails. -/
def decDigits (cs : List Char) : Option ℤ :=
  if cs ≠ [] ∧ cs.all Char.isDigit then some ((digitsVal cs : ℕ) : ℤ)
  else none

/-- Python `int(s)` on an already-stripped string: optional sign followed
by decimal digits; anything else raises (here: `none`). -/
def pyInt (cs : List Char) : Option ℤ :=
  match cs with
  | [] => none
  | c :: rest =>
    if c = '-' then (decDigits rest).map (fun n => -n)
    else if c = '+' then decDigits rest
    else decDigits (c :: rest)

/-- One iteration of the `parse_paris` loop body: `some row` when the line
yields a timing row, `none` when the line is skipped (blank, comment,
header, wrong field count, unparsable integers, negative duration). -/
def parseLine (line : List Char) : Option (ℤ × ℤ) :=
  let ln := pyStrip line
  if ln = [] then none
  else if List.isPrefixOf (String.toList ("#")) ln then none
  else if List.isPrefixOf (String.toList ("duration_ms")) (ln.map Char.toLower)
    then none
  else
    match (splitComma ln).map pyStrip with
    | [p0, p1] =>
      match pyInt p0, pyInt p1 with
      | some d, some v0 =>
        let v : ℤ := if v0 ≠ 0 then 1 else 0
        if 0 ≤ d then some (d, v) else none
      | _, _ => none
    | _ => none

/-- The rows accumulated by the `parse_paris` loop over all input lines. -/
def collectRows (lines : List String) : List (ℤ × ℤ) :=
  lines.filterMap (fun l => parseLine l.toList)

/-- `parse_paris`: collect the valid rows; raise (return an error) exactly
when no rows were collected. -/
def parse_paris (lines : List String) : Except String (List (ℤ × ℤ)) :=
  let rows := collectRows lines
  if rows = [] then Except.error "No timing rows found in file."
  else Except.ok rows

/-! Part: Waveform synthesizer (`synthesize_pcm16`, source lines 58-99) -/

/-- `samplerate = int(max(8000, min(192000, samplerate)))`. -/
def clampSamplerate (x : ℚ) : ℤ := truncQ (max 8000 (min 192000 x))

/-- `volume = float(max(0.0, min(1.0, volume)))`. -/
def clampVolume (x : ℚ) : ℚ := max 0 (min 1 x)

/-- `freq_hz = float(max(50.0, min(6000.0, freq_hz)))`. -/
def clampFreq (x : ℚ) : ℚ := max 50 (min 6000 x)

/-- `ramp_ms = float(max(0.0, min(50.0, ramp_ms)))`. -/
def clampRamp (x : ℚ) : ℚ := max 0 (min 50 x)

/-- `ramp_samples = int(samplerate * (ramp_ms / 1000.0))`. -/
def ramp_samples (sr : ℤ) (rm : ℚ) : ℤ := truncQ ((sr : ℚ) * (rm / 1000))

/-- `seg_len = int(round(samplerate * (dur_ms / 1000.0)))`. -/
def seg_len (sr : ℤ) (dur_ms : ℤ) : ℤ :=
  pyRound ((sr : ℚ) * ((dur_ms : ℚ) / 1000))

/-- The cosine fade envelope of a tone sample at local index `n` in a
segment of `L` samples, with `rs` ramp samples (source lines 80-89). -/
noncomputable def env (rs L n : ℤ) : ℝ :=
  if 0 < rs then
    if n < rs then 0.5 * (1 - Real.cos (Real.pi * (n : ℝ) / (rs : ℝ)))
    else if L - n ≤ rs then
      0.5 * (1 - Real.cos (Real.pi * ((L - n : ℤ) : ℝ) / (rs : ℝ)))
    else 1
  else 1

/-- `sample = volume * env * math.sin(two_pi * freq_hz * (t / samplerate))`
(source line 90), with `t` the running absolute sample index. -/
noncomputable def toneAmp (vol : ℚ) (e : ℝ) (freq : ℚ) (sr t : ℤ) : ℝ :=
  (vol : ℝ) * e * Real.sin (2 * Real.pi * (freq : ℝ) * ((t : ℝ) / (sr : ℝ)))

/-- `s = int(max(-1.0, min(1.0, sample)) * 32767.0)` (source line 91). -/
noncomputable def pcm16 (x : ℝ) : ℤ := truncR (max (-1) (min 1 x) * 32767)

/-- One iteration of the segment loop (source lines 71-97): the samples the
segment appends and the updated running index `t`. -/
noncomputable def synthSeg (freq : ℚ) (sr : ℤ) (vol : ℚ) (rs : ℤ)
    (row : ℤ × ℤ) (t : ℤ) : List ℤ × ℤ :=
  let L := seg_len sr row.1
  if L ≤ 0 then ([], t)
  else if row.2 = 1 then
    ((List.range L.toNat).map
      (fun (n : ℕ) =>
        pcm16 (toneAmp vol (env rs L (n : ℤ)) freq sr (t + (n : ℤ)))),
     t + L)
  else
    (List.replicate L.toNat 0, t + L)

/-- The segment loop over all rows, threading the running index `t`. -/
noncomputable def synthLoop (freq : ℚ) (sr : ℤ) (vol : ℚ) (rs : ℤ) :
    List (ℤ × ℤ) → ℤ → List ℤ × ℤ
  | [], t => ([], t)
  | row :: rows, t =>
    let s := synthSeg freq sr vol rs row t
    let rest := synthLoop freq sr vol rs rows s.2
    (s.1 ++ rest.1, rest.2)

/-- `synthesize_pcm16(rows, freq_hz, samplerate, volume, ramp_ms)`:
clamp the four parameters, derive `ramp_samples`, and run the segment loop
from `t = 0`. Returns the sample list and the final `t`. -/
noncomputable def synthesize_pcm16 (rows : List (ℤ × ℤ))
    (freq_hz samplerate volume ramp_ms : ℚ) : List ℤ × ℤ :=
  let sr := clampSamplerate samplerate
  let vol := clampVolume volume
  let f := clampFreq freq_hz
  let rm := clampRamp ramp_ms
  let rs := ramp_samples sr rm
  synthLoop f sr vol rs rows 0

/-- `struct.pack` with format `<h`: two little-endian bytes of the 16-bit
two's complement representation. -/
def pack_h (s : ℤ) : List ℤ := [s % 65536 % 256, s % 65536 / 256]

/-- Byte-level view of the sample buffer. -/
def toBytes (frames : List ℤ) : List ℤ := frames.flatMap pack_h

/-! Part: Claim-side reference synthesizer for the no-ramp case

The spec states that with `ramp_ms = 0` every tone sample is the
truncation toward zero of `32767` times the clamped raw sine amplitude,
with no envelope anywhere. The following definitions transcribe that
description; claim C6 compares them with `synthesize_pcm16`. -/

/-- Spec wording for a no-ramp tone sample: truncation toward zero of
`32767 * clamp(volume * sin(2*pi*frequency*t/sample_rate), -1, 1)`. -/
noncomputable def specNoRampSample (vol freq : ℚ) (sr t : ℤ) : ℤ :=
  truncR (32767 *
    max (-1) (min 1
      ((vol : ℝ) * Real.sin (2 * Real.pi * (freq : ℝ) * ((t : ℝ) / (sr : ℝ))))))

/-- Spec wording for one no-ramp segment: tone samples by
`specNoRampSample` at absolute indices, silence as zeros. -/
noncomputable def specNoRampSeg (freq : ℚ) (sr : ℤ) (vol : ℚ)
    (row : ℤ × ℤ) (t : ℤ) : List ℤ × ℤ :=
  let L := seg_len sr row.1
  if L ≤ 0 then ([], t)
  else if row.2 = 1 then
    ((List.range L.toNat).map
      (fun (n : ℕ) => specNoRampSample vol freq sr (t + (n : ℤ))),
     t + L)
  else
    (List.replicate L.toNat 0, t + L)

/-- Spec wording for the no-ramp segment loop. -/
noncomputable def specNoRampLoop (freq : ℚ) (sr : ℤ) (vol : ℚ) :
    List (ℤ × ℤ) → ℤ → List ℤ × ℤ
  | [], t => ([], t)
  | row :: rows, t =>
    let s := specNoRampSeg freq sr vol row t
    let rest := specNoRampLoop freq sr vol rows s.2
    (s.1 ++ rest.1, rest.2)

/-- Spec wording for whole no-ramp synthesis, with parameters clamped. -/
noncomputable def specNoRampSynth (rows : List (ℤ × ℤ))
    (freq_hz samplerate volume : ℚ) : List ℤ × ℤ :=
  specNoRampLoop (clampFreq freq_hz) (clampSamplerate samplerate)
    (clampVolume volume) rows 0

/-! Part: Helper lemmas about the segment loop -/

/-- The contribution of one row to the running index: its rounded length,
or nothing when that length is not positive. -/
theorem synthSeg_snd (freq : ℚ) (sr : ℤ) (vol : ℚ) (rs : ℤ)
    (row : ℤ × ℤ) (t : ℤ) :
    (synthSeg freq sr vol rs row t).2 =
      t + (if seg_len sr row.1 ≤ 0 then 0 else seg_len sr row.1) := by
  unfold synthSeg
  by_cases h : seg_len sr row.1 ≤ 0
  · simp [h]
  · by_cases hv : row.2 = 1 <;> simp [h, hv]

/-- The number of samples one row appends equals its contribution to the
running index. -/
theorem synthSeg_length (freq : ℚ) (sr : ℤ) (vol : ℚ) (rs : ℤ)
    (row : ℤ × ℤ) (t : ℤ) :
    ((synthSeg freq sr vol rs row t).1.length : ℤ) =
      (if seg_len sr row.1 ≤ 0 then 0 else seg_len sr row.1) := by
  unfold synthSeg
  by_cases h : seg_len sr row.1 ≤ 0
  · simp [h]
  · by_cases hv : row.2 = 1 <;>
      simp only [h, hv, if_false, if_true, ite_true, ite_false,
        List.length_map, List.length_range, List.length_replicate] <;>
      omega

/-- Final running index of the loop: the start index plus the positive
rounded segment lengths. -/
theorem synthLoop_snd (freq : ℚ) (sr : ℤ) (vol : ℚ) (rs : ℤ)
    (rows : List (ℤ × ℤ)) (t : ℤ) :
    (synthLoop freq sr vol rs rows t).2 =
      t + (rows.map (fun row =>
        if seg_len sr row.1 ≤ 0 then 0 else seg_len sr row.1)).sum := by
  induction rows generalizing t with
  | nil => simp [synthLoop]
  | cons row rows ih =>
    simp only [synthLoop, ih, synthSeg_snd, List.map_cons, List.sum_cons]
    ring

/-- Total number of samples produced by the loop. -/
theorem synthLoop_length (freq : ℚ) (sr : ℤ) (vol : ℚ) (rs : ℤ)
    (rows : List (ℤ × ℤ)) (t : ℤ) :
    (((synthLoop freq sr vol rs rows t).1.length : ℤ)) =
      (rows.map (fun row =>
        if seg_len sr row.1 ≤ 0 then 0 else seg_len sr row.1)).sum := by
  induction rows generalizing t with
  | nil => simp [synthLoop]
  | cons row rows ih =>
    simp only [synthLoop, List.length_append, Nat.cast_add, ih,
      synthSeg_length, List.map_cons, List.sum_cons]

/-- Packing a sample always yields two bytes. -/
theorem pack_h_length (s : ℤ) : (pack_h s).length = 2 := rfl

/-- The byte buffer is twice as long as the sample buffer. -/
theorem toBytes_length (frames : List ℤ) :
    (toBytes frames).length = 2 * frames.length := by
  induction frames with
  | nil => rfl
  | cons s frames ih =>
    simp only [toBytes, List.flatMap_cons, List.length_append] at ih ⊢
    simp [pack_h_length, ih]
    ring

/-! Part: Claim theorems -/

/-- Claim C1: for every segment list and every parameter set,
`synthesize_pcm16` returns a total sample count equal to the sum over all
segments of `round(clamped_sample_rate * duration_ms / 1000)`, where a
segment with non-positive rounded length contributes zero; the formula is
the same for tone and silence segments (it does not inspect the value
field). -/
theorem claim1_total_sample_count (rows : List (ℤ × ℤ))
    (f sr v r : ℚ) :
    (synthesize_pcm16 rows f sr v r).2 =
      (rows.map (fun row =>
        if seg_len (clampSamplerate sr) row.1 ≤ 0 then 0
        else seg_len (clampSamplerate sr) row.1)).sum := by
  unfold synthesize_pcm16
  simpa using synthLoop_snd (clampFreq f) (clampSamplerate sr)
    (clampVolume v) (ramp_samples (clampSamplerate sr) (clampRamp r)) rows 0

/-- Claim C2: `parse_paris` fails with the "no rows" error exactly when
the lenient line filter leaves no valid row; no individual line produces
any other error, and a successful result is exactly the collected rows
(never empty, no partial data alongside an error). -/
theorem claim2_parse_error_iff (lines : List String) :
    (parse_paris lines = Except.error "No timing rows found in file." ↔
      collectRows lines = [])
    ∧ (∀ e, parse_paris lines = Except.error e →
        e = "No timing rows found in file." ∧ collectRows lines = [])
    ∧ (∀ rows, parse_paris lines = Except.ok rows →
        rows = collectRows lines ∧ rows ≠ []) := by
  unfold parse_paris
  by_cases h : collectRows lines = [] <;> simp [h]

/-- Witness for C2 at a concrete input: a file holding only a comment
line parses to the "no rows" error. -/
theorem claim2_parse_error_iff_witness :
    parse_paris ["# comment only"] =
      Except.error "No timing rows found in file." :=
  (claim2_parse_error_iff ["# comment only"]).1.mpr (by rfl)

/-- Claim C10: the sample buffer always holds exactly as many samples as
the returned total count, and its byte-level view has exactly twice that
many bytes, for tone and silence segments alike. -/
theorem claim10_buffer_length (rows : List (ℤ × ℤ)) (f sr v r : ℚ) :
    ((synthesize_pcm16 rows f sr v r).1.length : ℤ) =
      (synthesize_pcm16 rows f sr v r).2
    ∧ (toBytes (synthesize_pcm16 rows f sr v r).1).length =
      2 * (synthesize_pcm16 rows f sr v r).1.length := by
  constructor
  · unfold synthesize_pcm16
    rw [synthLoop_snd, synthLoop_length]
    simp
  · exact toBytes_length _

/-! Part: Clamping lemmas -/

/-- A value already inside the clamp range is left unchanged. -/
theorem clamp_fix {lo hi y : ℚ} (h1 : lo ≤ y) (h2 : y ≤ hi) :
    max lo (min hi y) = y := by
  rw [min_eq_right h2, max_eq_right h1]

theorem clampVolume_idem (x : ℚ) :
    clampVolume (clampVolume x) = clampVolume x := by
  unfold clampVolume
  exact clamp_fix (le_max_left _ _)
    (max_le (by norm_num) (min_le_left _ _))

theorem clampFreq_idem (x : ℚ) :
    clampFreq (clampFreq x) = clampFreq x := by
  unfold clampFreq
  exact clamp_fix (le_max_left _ _)
    (max_le (by norm_num) (min_le_left _ _))

theorem clampRamp_idem (x : ℚ) :
    clampRamp (clampRamp x) = clampRamp x := by
  unfold clampRamp
  exact clamp_fix (le_max_left _ _)
    (max_le (by norm_num) (min_le_left _ _))

/-- The clamped sample rate lies in `[8000, 192000]`. -/
theorem clampSamplerate_bounds (x : ℚ) :
    8000 ≤ clampSamplerate x ∧ clampSamplerate x ≤ 192000 := by
  unfold clampSamplerate truncQ
  have h1 : (8000 : ℚ) ≤ max 8000 (min 192000 x) := le_max_left _ _
  have h2 : max 8000 (min 192000 x) ≤ 192000 :=
    max_le (by norm_num) (min_le_left _ _)
  rw [if_pos (le_trans (by norm_num) h1)]
  constructor
  · exact_mod_cast Int.le_floor.mpr (by exact_mod_cast h1)
  · calc ⌊max 8000 (min 192000 x)⌋ ≤ ⌊(192000 : ℚ)⌋ := Int.floor_le_floor h2
      _ = 192000 := by norm_num

/-- Re-clamping the integer sample rate gives it back. -/
theorem clampSamplerate_idem (x : ℚ) :
    clampSamplerate ((clampSamplerate x : ℤ) : ℚ) = clampSamplerate x := by
  obtain ⟨h1, h2⟩ := clampSamplerate_bounds x
  have h1q : (8000 : ℚ) ≤ ((clampSamplerate x : ℤ) : ℚ) := by exact_mod_cast h1
  have h2q : ((clampSamplerate x : ℤ) : ℚ) ≤ 192000 := by exact_mod_cast h2
  conv_lhs => rw [clampSamplerate, clamp_fix h1q h2q]
  unfold truncQ
  rw [if_pos (le_trans (by norm_num) h1q), Int.floor_intCast]

/-- Claim C3: `synthesize_pcm16` is total on all parameter values and its
output is unchanged when each parameter is independently clamped to its
documented range beforehand (frequency to `[50, 6000]`, sample rate to the
integer range `[8000, 192000]`, volume to `[0, 1]`, ramp to `[0, 50]`). -/
theorem claim3_clamped_params (rows : List (ℤ × ℤ)) (f sr v r : ℚ) :
    synthesize_pcm16 rows f sr v r =
      synthesize_pcm16 rows (clampFreq f) ((clampSamplerate sr : ℤ) : ℚ)
        (clampVolume v) (clampRamp r) := by
  unfold synthesize_pcm16
  rw [clampFreq_idem, clampVolume_idem, clampRamp_idem, clampSamplerate_idem]

/-- Claim C5: with a positive ramp, the envelope takes the fade-in value
whenever `n < ramp_samples` (for every segment length, in particular when
the fade windows overlap because `seg_len < 2 * ramp_samples`), the
fade-out value with `k = seg_len - n` when `n ≥ ramp_samples` and
`seg_len - n ≤ ramp_samples`, and `1` otherwise; the branches are chosen
by this precedence, never combined. -/
theorem claim5_env_branches (rs L : ℤ) (hrs : 0 < rs) (n : ℤ) :
    (n < rs →
      env rs L n = 0.5 * (1 - Real.cos (Real.pi * (n : ℝ) / (rs : ℝ))))
    ∧ (rs ≤ n → L - n ≤ rs →
      env rs L n =
        0.5 * (1 - Real.cos (Real.pi * ((L - n : ℤ) : ℝ) / (rs : ℝ))))
    ∧ (rs ≤ n → rs < L - n → env rs L n = 1) := by
  refine ⟨fun h => ?_, fun h h2 => ?_, fun h h2 => ?_⟩ <;>
    simp [env, hrs, h, not_lt.mpr h]
  · exact fun h3 => absurd h3 (by omega)
  · exact fun h3 => absurd h3 (by omega)

/-- Witness for C5 at overlapping fade windows: `rs = 2`, `L = 3`,
`n = 1` satisfies both the fade-in and the fade-out condition, and the
envelope takes the fade-in value. -/
theorem claim5_env_branches_witness :
    (1 : ℤ) < 2 ∧ (3 : ℤ) - 1 ≤ 2 ∧
      env 2 3 1 = 0.5 * (1 - Real.cos (Real.pi * ((1 : ℤ) : ℝ) / ((2 : ℤ) : ℝ))) :=
  ⟨by norm_num, by norm_num,
    (claim5_env_branches 2 3 (by norm_num) 1).1 (by norm_num)⟩

/-- Packing the zero sample gives two zero bytes. -/
theorem pack_h_zero : pack_h 0 = [0, 0] := rfl

/-- The byte view of a run of zero samples is a run of twice as many zero
bytes. -/
theorem toBytes_replicate_zero (k : ℕ) :
    toBytes (List.replicate k 0) = List.replicate (2 * k) 0 := by
  induction k with
  | zero => rfl
  | succ k ih =>
    simp only [List.replicate_succ, toBytes, List.flatMap_cons, pack_h_zero]
    rw [show 2 * (k + 1) = 2 + 2 * k by ring]
    simp only [List.replicate_add]
    simpa [toBytes] using ih

/-- Claim C7: a silence segment (`value ≠ 1`) of positive rounded length
appends exactly `seg_len` zero samples — which pack to `2 * seg_len` zero
bytes — and advances the running index by `seg_len`, whatever the
frequency, volume and ramp parameters are. -/
theorem claim7_silence_segment (d v : ℤ) (f sr vol r : ℚ) (t : ℤ)
    (hv : v ≠ 1) (hL : 0 < seg_len (clampSamplerate sr) d) :
    synthSeg (clampFreq f) (clampSamplerate sr) (clampVolume vol)
        (ramp_samples (clampSamplerate sr) (clampRamp r)) (d, v) t =
      (List.replicate (seg_len (clampSamplerate sr) d).toNat 0,
        t + seg_len (clampSamplerate sr) d)
    ∧ toBytes (List.replicate (seg_len (clampSamplerate sr) d).toNat 0) =
      List.replicate (2 * (seg_len (clampSamplerate sr) d).toNat) 0 := by
  constructor
  · unfold synthSeg
    simp [not_le.mpr hL, hv]
  · exact toBytes_replicate_zero _

/-- Witness for C7: a 100 ms silence row at an 8 kHz sample rate. -/
theorem claim7_silence_segment_witness :
    (0 : ℤ) ≠ 1 ∧ 0 < seg_len (clampSamplerate 8000) 100 ∧
      synthSeg (clampFreq 700) (clampSamplerate 8000) (clampVolume 1)
          (ramp_samples (clampSamplerate 8000) (clampRamp 5)) (100, 0) 0 =
        (List.replicate (seg_len (clampSamplerate 8000) 100).toNat 0,
          0 + seg_len (clampSamplerate 8000) 100) := by
  have hL : 0 < seg_len (clampSamplerate 8000) 100 := by
    norm_num [seg_len, pyRound, clampSamplerate, truncQ]
  exact ⟨by norm_num, hL,
    (claim7_silence_segment 100 0 700 8000 1 5 0 (by norm_num) hL).1⟩

/-- Every PCM value the amplitude quantizer can produce lies in
`[-32767, 32767]`. -/
theorem pcm16_bounds (x : ℝ) : -32767 ≤ pcm16 x ∧ pcm16 x ≤ 32767 := by
  unfold pcm16 truncR
  have h1 : (-1 : ℝ) ≤ max (-1) (min 1 x) := le_max_left _ _
  have h2 : max (-1) (min 1 x) ≤ 1 := max_le (by norm_num) (min_le_left _ _)
  have hy1 : (-32767 : ℝ) ≤ max (-1) (min 1 x) * 32767 := by nlinarith
  have hy2 : max (-1) (min 1 x) * 32767 ≤ 32767 := by nlinarith
  split_ifs with h
  · refine ⟨le_trans (by norm_num) (Int.floor_nonneg.mpr h), ?_⟩
    calc ⌊max (-1) (min 1 x) * 32767⌋ ≤ ⌊(32767 : ℝ)⌋ := Int.floor_le_floor hy2
      _ = 32767 := by norm_num
  · have hc : ⌈max (-1) (min 1 x) * 32767⌉ ≤ 0 :=
      Int.ceil_le.mpr (by push_cast; linarith [le_of_not_le h])
    refine ⟨?_, le_trans hc (by norm_num)⟩
    calc (-32767 : ℤ) = ⌈((-32767 : ℤ) : ℝ)⌉ := (Int.ceil_intCast _).symm
      _ ≤ ⌈max (-1) (min 1 x) * 32767⌉ :=
        Int.ceil_le_ceil (by push_cast; linarith)

/-- Every sample the loop emits lies in `[-32767, 32767]`. -/
theorem synthLoop_sample_bounds (freq : ℚ) (sr : ℤ) (vol : ℚ) (rs : ℤ)
    (rows : List (ℤ × ℤ)) (t : ℤ) (s : ℤ)
    (hs : s ∈ (synthLoop freq sr vol rs rows t).1) :
    -32767 ≤ s ∧ s ≤ 32767 := by
  induction rows generalizing t with
  | nil => simp [synthLoop] at hs
  | cons row rows ih =>
    simp only [synthLoop, List.mem_append] at hs
    rcases hs with h | h
    · unfold synthSeg at h
      by_cases hL : seg_len sr row.1 ≤ 0
      · simp [hL] at h
      · by_cases hv : row.2 = 1
        · simp only [hL, hv, if_false, if_true, ite_true, ite_false,
            List.mem_map] at h
          obtain ⟨n, _, hn⟩ := h
          exact hn ▸ pcm16_bounds _
        · simp only [hL, hv, if_false, if_true, ite_true, ite_false,
            List.mem_replicate] at h
          rw [h.2]
          exact ⟨by norm_num, by norm_num⟩
    · exact ih _ h

/-- Claim C9: every 16-bit value `synthesize_pcm16` puts into the output
lies in `[-32767, 32767]` — the clamp to `[-1, 1]` before scaling by
`32767` and truncating toward zero means `-32768` is never produced and
the 16-bit pack can never overflow. -/
theorem claim9_sample_range (rows : List (ℤ × ℤ)) (f sr v r : ℚ) (s : ℤ)
    (hs : s ∈ (synthesize_pcm16 rows f sr v r).1) :
    -32767 ≤ s ∧ s ≤ 32767 := by
  unfold synthesize_pcm16 at hs
  exact synthLoop_sample_bounds _ _ _ _ _ _ _ hs

/-- Witness for C9: the zero sample of a silence schedule is in range. -/
theorem claim9_sample_range_witness :
    (0 : ℤ) ∈ (synthesize_pcm16 [(1, 0)] 700 8000 0 5).1 ∧
      -32767 ≤ (0 : ℤ) ∧ (0 : ℤ) ≤ 32767 := by
  have hm : (0 : ℤ) ∈ (synthesize_pcm16 [(1, 0)] 700 8000 0 5).1 := by
    simp only [synthesize_pcm16, synthLoop, synthSeg]
    norm_num [seg_len, pyRound, clampSamplerate, truncQ]
  exact ⟨hm, claim9_sample_range [(1, 0)] 700 8000 0 5 0 hm⟩

/-! Part: The no-ramp case (C6) -/

theorem clampRamp_zero : clampRamp 0 = 0 := by norm_num [clampRamp]

theorem ramp_samples_zero (sr : ℤ) : ramp_samples sr 0 = 0 := by
  simp [ramp_samples, truncQ]

theorem env_zero (L n : ℤ) : env 0 L n = 1 := by simp [env]

/-- With the envelope forced to `1`, the code's quantized tone sample is
exactly the spec's no-ramp sample. -/
theorem pcm16_no_env (vol freq : ℚ) (sr t : ℤ) :
    pcm16 (toneAmp vol 1 freq sr t) = specNoRampSample vol freq sr t := by
  unfold pcm16 toneAmp specNoRampSample
  rw [mul_one (vol : ℝ), mul_comm _ (32767 : ℝ)]

theorem specNoRampSeg_eq (freq : ℚ) (sr : ℤ) (vol : ℚ)
    (row : ℤ × ℤ) (t : ℤ) :
    synthSeg freq sr vol 0 row t = specNoRampSeg freq sr vol row t := by
  simp only [synthSeg, specNoRampSeg, env_zero, pcm16_no_env]

theorem specNoRampLoop_eq (freq : ℚ) (sr : ℤ) (vol : ℚ)
    (rows : List (ℤ × ℤ)) (t : ℤ) :
    synthLoop freq sr vol 0 rows t = specNoRampLoop freq sr vol rows t := by
  induction rows generalizing t with
  | nil => rfl
  | cons row rows ih =>
    simp only [synthLoop, specNoRampLoop, specNoRampSeg_eq, ih]

/-- Claim C6: with `ramp_ms = 0` the derived `ramp_samples` is `0`, the
envelope is identically `1`, and the whole synthesis equals the spec's
no-taper description: each tone sample is the truncation toward zero of
`32767 * clamp(volume * sin(2*pi*frequency*t/sample_rate), -1, 1)`. -/
theorem claim6_no_ramp (rows : List (ℤ × ℤ)) (f sr v : ℚ) :
    ramp_samples (clampSamplerate sr) (clampRamp 0) = 0
    ∧ (∀ L n : ℤ,
        env (ramp_samples (clampSamplerate sr) (clampRamp 0)) L n = 1)
    ∧ synthesize_pcm16 rows f sr v 0 = specNoRampSynth rows f sr v := by
  have hr : ramp_samples (clampSamplerate sr) (clampRamp 0) = 0 := by
    rw [clampRamp_zero]
    exact ramp_samples_zero _
  refine ⟨hr, fun L n => by rw [hr]; exact env_zero L n, ?_⟩
  show synthLoop (clampFreq f) (clampSamplerate sr) (clampVolume v)
      (ramp_samples (clampSamplerate sr) (clampRamp 0)) rows 0 =
    specNoRampSynth rows f sr v
  rw [hr]
  exact specNoRampLoop_eq _ _ _ rows 0

/-! Part: The worked example (C8) -/

/-- Claim C8: the schedule `[(100 ms, tone), (50 ms, silence)]` at 8 kHz,
1 kHz, full volume and no ramp yields `800 + 400 = 1200` samples; sample
`t` of the first 800 is `trunc(32767 * sin(2*pi*1000*t/8000))` and the
last 400 samples are zero. -/
theorem claim8_example :
    (synthesize_pcm16 [(100, 1), (50, 0)] 1000 8000 1 0).2 = 1200
    ∧ (synthesize_pcm16 [(100, 1), (50, 0)] 1000 8000 1 0).1.length = 1200
    ∧ (∀ t : ℕ, t < 800 →
        (synthesize_pcm16 [(100, 1), (50, 0)] 1000 8000 1 0).1[t]? =
          some (truncR (32767 * Real.sin (2 * Real.pi * 1000 * (t : ℝ) / 8000))))
    ∧ (∀ i : ℕ, 800 ≤ i → i < 1200 →
        (synthesize_pcm16 [(100, 1), (50, 0)] 1000 8000 1 0).1[i]? = some 0) := by
  have hf : clampFreq 1000 = 1000 := by norm_num [clampFreq]
  have hsr : clampSamplerate 8000 = 8000 := by
    norm_num [clampSamplerate, truncQ]
  have hvol : clampVolume 1 = 1 := by norm_num [clampVolume]
  have hL1 : seg_len 8000 100 = 800 := by norm_num [seg_len, pyRound]
  have hL2 : seg_len 8000 50 = 400 := by norm_num [seg_len, pyRound]
  have hrs : ramp_samples 8000 (clampRamp 0) = 0 := by
    rw [clampRamp_zero]
    exact ramp_samples_zero _
  have hfrm : (synthesize_pcm16 [(100, 1), (50, 0)] 1000 8000 1 0).1 =
      (List.range 800).map
        (fun (n : ℕ) => pcm16 (toneAmp 1 (env 0 800 (n : ℤ)) 1000 8000 (n : ℤ)))
        ++ List.replicate 400 (0 : ℤ) := by
    simp only [synthesize_pcm16]
    rw [hf, hsr, hvol, hrs]
    simp only [synthLoop, synthSeg, hL1, hL2]
    norm_num [show Int.toNat 800 = 800 from rfl, show Int.toNat 400 = 400 from rfl]
  have htot : (synthesize_pcm16 [(100, 1), (50, 0)] 1000 8000 1 0).2 = 1200 := by
    simp only [synthesize_pcm16]
    rw [hf, hsr, hvol, hrs]
    simp only [synthLoop, synthSeg, hL1, hL2]
    norm_num
  refine ⟨htot, ?_, fun t ht => ?_, fun i h1 h2 => ?_⟩
  · rw [hfrm]
    simp
  · rw [hfrm, List.getElem?_append, if_pos (by simpa using ht),
      List.getElem?_map, List.getElem?_range ht]
    simp only [Option.map_some']
    simp only [env_zero, pcm16_no_env, specNoRampSample]
    push_cast
    rw [one_mul, min_eq_right (Real.sin_le_one _),
      max_eq_right (Real.neg_one_le_sin _), mul_div_assoc]
  · rw [hfrm, List.getElem?_append,
      if_neg (by simp only [List.length_map, List.length_range]; omega)]
    simp only [List.length_map, List.length_range, List.getElem?_replicate]
    rw [if_pos (by omega)]

/-- Witness for C8: the total count, and the first silence sample. -/
theorem claim8_example_witness :
    (synthesize_pcm16 [(100, 1), (50, 0)] 1000 8000 1 0).2 = 1200
    ∧ (synthesize_pcm16 [(100, 1), (50, 0)] 1000 8000 1 0).1[800]? = some 0 :=
  ⟨claim8_example.1, claim8_example.2.2.2 800 (by norm_num) (by norm_num)⟩

/-! Part: Phase continuity (C4) -/

/-- Sample `n` of the third segment of a three-row schedule ending in a
tone: it is the tone formula evaluated at the absolute index
`seg_len_1 + seg_len_2 + n`, whatever the first two segment values are. -/
theorem synthLoop_third_tone_sample (F : ℚ) (csr : ℤ) (V : ℚ) (rs : ℤ)
    (d1 d2 d3 v1 v2 : ℤ) (n : ℕ)
    (h1 : 0 < seg_len csr d1) (h2 : 0 < seg_len csr d2)
    (h3 : (n : ℤ) < seg_len csr d3) :
    (synthLoop F csr V rs [(d1, v1), (d2, v2), (d3, 1)] 0).1[
        (seg_len csr d1).toNat + (seg_len csr d2).toNat + n]? =
      some (pcm16 (toneAmp V (env rs (seg_len csr d3) (n : ℤ)) F csr
        (seg_len csr d1 + seg_len csr d2 + (n : ℤ)))) := by
  have hL3 : ¬ seg_len csr d3 ≤ 0 := by omega
  have hs1t : (synthSeg F csr V rs (d1, v1) 0).2 = seg_len csr d1 := by
    rw [synthSeg_snd, if_neg (not_le.mpr h1), zero_add]
  have hs1l : (synthSeg F csr V rs (d1, v1) 0).1.length =
      (seg_len csr d1).toNat := by
    unfold synthSeg
    by_cases hv : v1 = 1 <;> simp [not_le.mpr h1, hv]
  have hs2t : (synthSeg F csr V rs (d2, v2) (seg_len csr d1)).2 =
      seg_len csr d1 + seg_len csr d2 := by
    rw [synthSeg_snd, if_neg (not_le.mpr h2)]
  have hs2l : (synthSeg F csr V rs (d2, v2) (seg_len csr d1)).1.length =
      (seg_len csr d2).toNat := by
    unfold synthSeg
    by_cases hv : v2 = 1 <;> simp [not_le.mpr h2, hv]
  have hs3 : synthSeg F csr V rs (d3, 1)
      (seg_len csr d1 + seg_len csr d2) =
      ((List.range (seg_len csr d3).toNat).map
        (fun (k : ℕ) => pcm16 (toneAmp V (env rs (seg_len csr d3) (k : ℤ))
          F csr (seg_len csr d1 + seg_len csr d2 + (k : ℤ)))),
       seg_len csr d1 + seg_len csr d2 + seg_len csr d3) := by
    unfold synthSeg
    simp [hL3]
  simp only [synthLoop]
  rw [hs1t, hs2t, hs3]
  rw [List.append_nil, List.getElem?_append, hs1l, if_neg (by omega),
    show (seg_len csr d1).toNat + (seg_len csr d2).toNat + n
        - (seg_len csr d1).toNat = (seg_len csr d2).toNat + n from by omega,
    List.getElem?_append, hs2l, if_neg (by omega),
    show (seg_len csr d2).toNat + n - (seg_len csr d2).toNat = n from by omega,
    List.getElem?_map, List.getElem?_range (by omega : n < (seg_len csr d3).toNat)]
  simp

/-- Claim C4: the sine argument of every tone sample is driven by the
absolute running index `t` (here `seg_len_1 + seg_len_2 + n` for sample
`n` of the third segment), not a per-segment local index; hence in a
tone–silence–tone schedule every sample of the second tone is identical
to the corresponding sample of the schedule in which the tone continues
through the silence interval. -/
theorem claim4_phase_continuity (d1 d2 d3 : ℤ) (f sr v r : ℚ) (n : ℕ)
    (h1 : 0 < seg_len (clampSamplerate sr) d1)
    (h2 : 0 < seg_len (clampSamplerate sr) d2)
    (h3 : (n : ℤ) < seg_len (clampSamplerate sr) d3) :
    (synthesize_pcm16 [(d1, 1), (d2, 0), (d3, 1)] f sr v r).1[
        (seg_len (clampSamplerate sr) d1).toNat
          + (seg_len (clampSamplerate sr) d2).toNat + n]? =
      some (pcm16 (toneAmp (clampVolume v)
        (env (ramp_samples (clampSamplerate sr) (clampRamp r))
          (seg_len (clampSamplerate sr) d3) (n : ℤ))
        (clampFreq f) (clampSamplerate sr)
        (seg_len (clampSamplerate sr) d1 + seg_len (clampSamplerate sr) d2
          + (n : ℤ))))
    ∧ (synthesize_pcm16 [(d1, 1), (d2, 0), (d3, 1)] f sr v r).1[
        (seg_len (clampSamplerate sr) d1).toNat
          + (seg_len (clampSamplerate sr) d2).toNat + n]? =
      (synthesize_pcm16 [(d1, 1), (d2, 1), (d3, 1)] f sr v r).1[
        (seg_len (clampSamplerate sr) d1).toNat
          + (seg_len (clampSamplerate sr) d2).toNat + n]? := by
  have hsil := synthLoop_third_tone_sample (clampFreq f) (clampSamplerate sr)
    (clampVolume v) (ramp_samples (clampSamplerate sr) (clampRamp r))
    d1 d2 d3 1 0 n h1 h2 h3
  have htone := synthLoop_third_tone_sample (clampFreq f) (clampSamplerate sr)
    (clampVolume v) (ramp_samples (clampSamplerate sr) (clampRamp r))
    d1 d2 d3 1 1 n h1 h2 h3
  exact ⟨hsil, hsil.trans htone.symm⟩

/-- Witness for C4: three 1 ms segments at 8 kHz; the first sample after
tone–silence equals the corresponding sample of tone–tone–tone. -/
theorem claim4_phase_continuity_witness :
    0 < seg_len (clampSamplerate 8000) 1 ∧
      (synthesize_pcm16 [(1, 1), (1, 0), (1, 1)] 700 8000 1 5).1[
        (seg_len (clampSamplerate 8000) 1).toNat
          + (seg_len (clampSamplerate 8000) 1).toNat + 0]? =
      (synthesize_pcm16 [(1, 1), (1, 1), (1, 1)] 700 8000 1 5).1[
        (seg_len (clampSamplerate 8000) 1).toNat
          + (seg_len (clampSamplerate 8000) 1).toNat + 0]? := by
  have h : 0 < seg_len (clampSamplerate 8000) 1 := by
    norm_num [seg_len, pyRound, clampSamplerate, truncQ]
  have h3 : ((0 : ℕ) : ℤ) < seg_len (clampSamplerate 8000) 1 := by
    exact_mod_cast h
  exact ⟨h, (claim4_phase_continuity 1 1 1 700 8000 1 5 0 h h h3).2⟩

end ParisPlayer
